import Mathlib

/-!
Verification of the cluster coordination subsystem of a JMAP server
(peer registry, failure-detector lifecycle states, and the Raft-style
per-shard leader election described in the design document).

The peer data model and its constructors and predicates are embedded
from `src/cluster/peer.rs`.  Network handles (`tx`, `online_rx`) and the
wall-clock field `last_heartbeat` are I/O resources with no logical
content for the properties below and are omitted from the embedding;
every other field of the Rust `Peer` struct is carried verbatim.
The Rust constant `HEARTBEAT_WINDOW` is defined outside the provided
sources, so it appears here as an explicit parameter `hw`.
-/

namespace JmapCluster

/-- Modelled from the spec: the gossip lifecycle enum `cluster::gossip::State`, whose declaration is not among the provided sources
(the five variants named by `peer.rs` and the design document). -/
inductive GossipState where
  | Seed
  | Alive
  | Suspected
  | Offline
  | Left
deriving DecidableEq, Repr

/-- The gossip `PeerInfo` record exchanged between peers: the fields of
it that `Peer::new` reads in `peer.rs`. -/
structure PeerInfo where
  peer_id : Nat
  shard_id : Nat
  epoch : Nat
  generation : Nat
  addr : String
  hostname : String
  last_log_index : Nat
  last_log_term : Nat
deriving DecidableEq, Repr

/-- The `Peer` struct of `peer.rs`, minus the rpc channel handles and
the `Instant` timestamp (I/O resources, see the module comment). -/
structure Peer where
  peer_id : Nat
  shard_id : Nat
  epoch : Nat
  generation : Nat
  addr : String
  state : GossipState
  hostname : String
  hb_window : List Nat
  hb_window_pos : Nat
  hb_sum : Nat
  hb_sq_sum : Nat
  hb_is_full : Bool
  last_log_index : Nat
  last_log_term : Nat
  commit_index : Nat
  vote_granted : Bool
deriving DecidableEq, Repr

/-- `Peer::new_seed` from `peer.rs` (lines 31-63).  `hw` is the value of
the `HEARTBEAT_WINDOW` constant. -/
def Peer.new_seed (hw : Nat) (peer_id : Nat) (addr : String) : Peer :=
  { peer_id := peer_id
    shard_id := 0
    epoch := 0
    generation := 0
    addr := addr
    state := GossipState.Seed
    hostname := ""
    hb_window := List.replicate hw 0
    hb_window_pos := 0
    hb_sum := 0
    hb_sq_sum := 0
    hb_is_full := false
    last_log_index := 0
    last_log_term := 0
    commit_index := 0
    vote_granted := false }

/-- `Peer::new` from `peer.rs` (lines 65-101). -/
def Peer.new (hw : Nat) (peer : PeerInfo) (state : GossipState) : Peer :=
  { peer_id := peer.peer_id
    shard_id := peer.shard_id
    epoch := peer.epoch
    generation := peer.generation
    addr := peer.addr
    hostname := peer.hostname
    state := state
    hb_window := List.replicate hw 0
    hb_window_pos := 0
    hb_sum := 0
    hb_sq_sum := 0
    hb_is_full := false
    last_log_index := peer.last_log_index
    last_log_term := peer.last_log_term
    commit_index := peer.last_log_index
    vote_granted := false }

/-- `Peer::is_seed` from `peer.rs`. -/
def Peer.is_seed (p : Peer) : Bool :=
  p.state == GossipState.Seed

/-- `Peer::is_alive` from `peer.rs`. -/
def Peer.is_alive (p : Peer) : Bool :=
  p.state == GossipState.Alive

/-- `Peer::is_suspected` from `peer.rs`. -/
def Peer.is_suspected (p : Peer) : Bool :=
  p.state == GossipState.Suspected

/-- `Peer::is_healthy` from `peer.rs`: `matches!(state, Alive | Suspected)`. -/
def Peer.is_healthy (p : Peer) : Bool :=
  p.state == GossipState.Alive || p.state == GossipState.Suspected

/-- `Peer::is_offline` from `peer.rs`: `matches!(state, Offline | Left)`. -/
def Peer.is_offline (p : Peer) : Bool :=
  p.state == GossipState.Offline || p.state == GossipState.Left

/-- `Peer::is_in_shard` from `peer.rs`. -/
def Peer.is_in_shard (p : Peer) (shard_id : Nat) : Bool :=
  p.shard_id == shard_id

/-- The peer collection of the `Cluster` struct; the queries below only
touch `self.peers`. -/
structure Cluster where
  peers : List Peer
deriving DecidableEq, Repr

/-- `Cluster::is_peer_healthy` from `peer.rs`:
`self.peers.iter().any(|p| p.peer_id == peer_id && p.is_healthy())`. -/
def Cluster.is_peer_healthy (c : Cluster) (peer_id : Nat) : Bool :=
  c.peers.any (fun p => p.peer_id == peer_id && p.is_healthy)

/-- `Cluster::get_peer` from `peer.rs`:
`self.peers.iter().find(|p| p.peer_id == peer_id)`. -/
def Cluster.get_peer (c : Cluster) (peer_id : Nat) : Option Peer :=
  c.peers.find? (fun p => p.peer_id == peer_id)

/-- `Cluster::is_known_peer` from `peer.rs`:
`self.peers.iter().any(|p| p.peer_id == peer_id)`. -/
def Cluster.is_known_peer (c : Cluster) (peer_id : Nat) : Bool :=
  c.peers.any (fun p => p.peer_id == peer_id)

/-- Modelled from the spec: resetting the stored heartbeat
statistics of a peer ("if higher, prior heartbeat statistics are reset", §4.1);
the registry implementation is not among the provided sources. -/
def Peer.reset_hb_stats (hw : Nat) (p : Peer) : Peer :=
  { p with
    hb_window := List.replicate hw 0
    hb_window_pos := 0
    hb_sum := 0
    hb_sq_sum := 0
    hb_is_full := false }

/-- Modelled from the spec: merging an incoming `PeerInfo` into a stored
peer with the same `peer_id` (§4.1 `upsert`); the registry
implementation is not among the provided sources. -/
def Peer.apply_info (p : Peer) (info : PeerInfo) : Peer :=
  { p with
    shard_id := info.shard_id
    epoch := info.epoch
    generation := info.generation
    addr := info.addr
    hostname := info.hostname
    last_log_index := info.last_log_index
    last_log_term := info.last_log_term }

/-- Modelled from the spec: the per-peer decision of `upsert` (§4.1): a
strictly lower incoming epoch is ignored (stale), a strictly higher one
merges and resets the heartbeat statistics, an equal one merges in
place. -/
def upsert_merge (hw : Nat) (p : Peer) (info : PeerInfo) : Peer :=
  if info.epoch < p.epoch then p
  else if p.epoch < info.epoch then Peer.reset_hb_stats hw (p.apply_info info)
  else p.apply_info info

/-- Modelled from the spec: `upsert(peer_info)` of the PeerRegistry
(§4.1): merges by `peer_id` when the id is already stored, otherwise
inserts a fresh peer ("a Peer is created when first observed", §3); the
registry implementation is not among the provided sources. -/
def Cluster.upsert (hw : Nat) (c : Cluster) (info : PeerInfo) : Cluster :=
  if c.is_known_peer info.peer_id then
    { peers := c.peers.map
        (fun p => if p.peer_id = info.peer_id then upsert_merge hw p info else p) }
  else
    { peers := c.peers ++ [Peer.new hw info GossipState.Alive] }

/-- Raft-style role of a node in the per-shard election (§4.3). -/
inductive Role where
  | Follower
  | Candidate
  | Leader
deriving DecidableEq, Repr

/-- Modelled from the spec: the per-shard election state of §4.3 over a
fixed set of `n` shard peers (the healthy membership is held fixed while
elections run; the ElectionCoordinator implementation is not among the
provided sources).  `votedFor t v` records the candidate peer `v`
granted its vote in term `t`, `votes i` the votes peer `i` has received
in its current term, and the `lastLog` fields the replication bookkeeping
consulted by the vote-granting rule. -/
structure ElectionState (n : Nat) where
  role : Fin n → Role
  currentTerm : Fin n → Nat
  votedFor : Nat → Fin n → Option (Fin n)
  votes : Fin n → Finset (Fin n)
  lastLogTerm : Fin n → Nat
  lastLogIndex : Fin n → Nat

/-- Pointwise update of a function at one peer. -/
def upd {α : Type} {n : Nat} (f : Fin n → α) (i : Fin n) (a : α) : Fin n → α :=
  fun j => if j = i then a else f j

/-- Modelled from the spec: the log of candidate `c` is at least as up
to date as the log of voter `v` ("compare `last_log_term` then
`last_log_index`, the Raft rule", §4.3). -/
def logUpToDate {n : Nat} (s : ElectionState n) (c v : Fin n) : Prop :=
  s.lastLogTerm v < s.lastLogTerm c ∨
    (s.lastLogTerm c = s.lastLogTerm v ∧ s.lastLogIndex v ≤ s.lastLogIndex c)

/-- Initial election state: every peer a `Follower` at term 0 with no
votes granted or received (§4.3 "Initial state: `Follower`, term = 0"). -/
def initState (n : Nat) : ElectionState n :=
  { role := fun _ => Role.Follower
    currentTerm := fun _ => 0
    votedFor := fun _ _ => none
    votes := fun _ => ∅
    lastLogTerm := fun _ => 0
    lastLogIndex := fun _ => 0 }

/-- Modelled from the spec: one transition of the per-shard election
protocol of §4.3.  `timeout` is the election timeout firing on a
non-leader (it increments the term, moves to `Candidate` and votes for
itself); `grant` is the vote-granting rule (at most once per term, never
for a different candidate in the same term, only for an up-to-date log);
`recvVote` delivers a granted vote to the candidate it was granted to;
`becomeLeader` requires granted votes from a strict majority of the
shard peers; `observeHigherTerm` is the revert-to-`Follower` rule on
any message bearing a strictly greater term; `advanceLog` lets the
replication bookkeeping of a peer move arbitrarily. -/
inductive Step {n : Nat} : ElectionState n → ElectionState n → Prop where
  | timeout (s : ElectionState n) (i : Fin n) :
      s.role i ≠ Role.Leader →
      Step s
        { role := upd s.role i Role.Candidate
          currentTerm := upd s.currentTerm i (s.currentTerm i + 1)
          votedFor := fun t v =>
            if t = s.currentTerm i + 1 ∧ v = i then some i else s.votedFor t v
          votes := upd s.votes i {i}
          lastLogTerm := s.lastLogTerm
          lastLogIndex := s.lastLogIndex }
  | grant (s : ElectionState n) (v c : Fin n) :
      (s.votedFor (s.currentTerm v) v = none ∨
        s.votedFor (s.currentTerm v) v = some c) →
      logUpToDate s c v →
      Step s
        { s with votedFor := fun t w =>
            if t = s.currentTerm v ∧ w = v then some c else s.votedFor t w }
  | recvVote (s : ElectionState n) (c v : Fin n) :
      s.role c = Role.Candidate →
      s.votedFor (s.currentTerm c) v = some c →
      Step s { s with votes := upd s.votes c (insert v (s.votes c)) }
  | becomeLeader (s : ElectionState n) (c : Fin n) :
      s.role c = Role.Candidate →
      2 * (s.votes c).card > n →
      Step s { s with role := upd s.role c Role.Leader }
  | observeHigherTerm (s : ElectionState n) (i : Fin n) (t : Nat) :
      s.currentTerm i < t →
      Step s
        { s with
          role := upd s.role i Role.Follower
          currentTerm := upd s.currentTerm i t
          votes := upd s.votes i ∅ }
  | advanceLog (s : ElectionState n) (i : Fin n) (llt lli : Nat) :
      Step s
        { s with
          lastLogTerm := upd s.lastLogTerm i llt
          lastLogIndex := upd s.lastLogIndex i lli }

/-- Election states reachable from the initial state. -/
inductive Reachable {n : Nat} : ElectionState n → Prop where
  | init : Reachable (initState n)
  | step {s s' : ElectionState n} : Reachable s → Step s s' → Reachable s'

/-- Reflexive-transitive closure of `Step`. -/
inductive StepStar {n : Nat} : ElectionState n → ElectionState n → Prop where
  | refl (s : ElectionState n) : StepStar s s
  | tail {s s' s'' : ElectionState n} :
      StepStar s s' → Step s' s'' → StepStar s s''

/-- Per-shard system: each shard runs its own independent election
machine (§4.3 "scoped per shard"). -/
def ShardSys (n : Nat) : Type :=
  Nat → ElectionState n

/-- Initial per-shard system. -/
def sysInit (n : Nat) : ShardSys n :=
  fun _ => initState n

/-- One transition of the whole system: the election machine of a
single shard takes a step, all other shards are untouched. -/
inductive SysStep {n : Nat} : ShardSys n → ShardSys n → Prop where
  | step (sys : ShardSys n) (sh : Nat) (s' : ElectionState n) :
      Step (sys sh) s' →
      SysStep sys (fun sh2 => if sh2 = sh then s' else sys sh2)

/-- Systems reachable from the initial per-shard system. -/
inductive SysReachable {n : Nat} : ShardSys n → Prop where
  | init : SysReachable (sysInit n)
  | step {sys sys' : ShardSys n} :
      SysReachable sys → SysStep sys sys' → SysReachable sys'

/-- Inductive invariant of the election machine: votes are only ever
recorded at or below the current term of the voter; the received votes
of every non-follower were granted to it in its current term; every
leader holds votes from a strict majority of the shard peers. -/
def Inv {n : Nat} (s : ElectionState n) : Prop :=
  (∀ t v, s.currentTerm v < t → s.votedFor t v = none) ∧
  (∀ i, s.role i ≠ Role.Follower →
    ∀ v ∈ s.votes i, s.votedFor (s.currentTerm i) v = some i) ∧
  (∀ i, s.role i = Role.Leader → 2 * (s.votes i).card > n)

/-- Concrete one-peer election state after the election timeout fires on
peer 0 in the initial state. -/
def demoS1 : ElectionState 1 :=
  { role := upd (initState 1).role 0 Role.Candidate
    currentTerm := upd (initState 1).currentTerm 0 ((initState 1).currentTerm 0 + 1)
    votedFor := fun t v =>
      if t = (initState 1).currentTerm 0 + 1 ∧ v = 0 then some 0
      else (initState 1).votedFor t v
    votes := upd (initState 1).votes 0 {0}
    lastLogTerm := (initState 1).lastLogTerm
    lastLogIndex := (initState 1).lastLogIndex }

/-- Concrete one-peer election state after the candidate of `demoS1`
wins the election. -/
def demoS2 : ElectionState 1 :=
  { demoS1 with role := upd demoS1.role 0 Role.Leader }

/-- Concrete one-shard-active system holding `demoS1` at shard 0. -/
def demoSys1 : ShardSys 1 :=
  fun sh2 => if sh2 = 0 then demoS1 else sysInit 1 sh2

/-- Concrete one-shard-active system holding `demoS2` at shard 0. -/
def demoSys2 : ShardSys 1 :=
  fun sh2 => if sh2 = 0 then demoS2 else demoSys1 sh2

/-- Concrete stored peer used to exercise the registry `upsert`. -/
def demoStored : Peer :=
  { Peer.new_seed 4 1 "10.0.0.9:7911" with
    epoch := 5
    state := GossipState.Alive
    hb_window := [8, 9, 10, 11]
    hb_window_pos := 2
    hb_sum := 38
    hb_sq_sum := 366
    hb_is_full := true }

/-- Concrete incoming `PeerInfo` carrying a stale (lower) epoch. -/
def demoInfoLow : PeerInfo :=
  { peer_id := 1
    shard_id := 2
    epoch := 3
    generation := 0
    addr := "10.0.0.9:7911"
    hostname := "mx9"
    last_log_index := 6
    last_log_term := 2 }

/-- Concrete incoming `PeerInfo` carrying a fresh (higher) epoch. -/
def demoInfoHigh : PeerInfo :=
  { demoInfoLow with epoch := 9 }

/-- Claim C2: every constructed peer satisfies `commit_index ≤ last_log_index`,
and both constructors establish it: `Peer::new_seed` sets
`commit_index = last_log_index = 0`, and `Peer::new` sets `commit_index`
equal to the `last_log_index` taken from the supplied `PeerInfo`. -/
theorem new_seed_new_establish_commit_le_last_log :
    ∀ (hw peer_id : Nat) (addr : String),
      (Peer.new_seed hw peer_id addr).commit_index = 0 ∧
      (Peer.new_seed hw peer_id addr).last_log_index = 0 ∧
      (Peer.new_seed hw peer_id addr).commit_index ≤
        (Peer.new_seed hw peer_id addr).last_log_index ∧
    ∀ (info : PeerInfo) (st : GossipState),
      (Peer.new hw info st).commit_index = info.last_log_index ∧
      (Peer.new hw info st).last_log_index = info.last_log_index ∧
      (Peer.new hw info st).commit_index ≤ (Peer.new hw info st).last_log_index := by
  intro hw peer_id addr
  refine ⟨rfl, rfl, Nat.le_refl 0, ?_⟩
  intro info st
  exact ⟨rfl, rfl, Nat.le_refl _⟩

/-- Claim C4: `is_healthy` returns true exactly when the state is `Alive` or
`Suspected`; a `Suspected` peer is healthy, while `Seed`, `Offline` and
`Left` peers are not. -/
theorem is_healthy_iff_alive_or_suspected :
    ∀ p : Peer, (p.is_healthy = true ↔
      (p.state = GossipState.Alive ∨ p.state = GossipState.Suspected)) := by
  intro p
  cases h : p.state <;> simp [Peer.is_healthy, h]

/-- Witness for C4: a concrete `Suspected` peer is healthy by the
theorem, and a concrete `Seed` peer is not. -/
theorem is_healthy_iff_alive_or_suspected_witness :
    { Peer.new_seed 10 1 "10.0.0.1:7911" with
        state := GossipState.Suspected }.is_healthy = true ∧
    (Peer.new_seed 10 1 "10.0.0.1:7911").is_healthy = false := by
  constructor
  · exact (is_healthy_iff_alive_or_suspected _).mpr (Or.inr rfl)
  · have h := is_healthy_iff_alive_or_suspected (Peer.new_seed 10 1 "10.0.0.1:7911")
    simp only [Peer.new_seed] at h ⊢
    by_contra hc
    rcases h.mp (by revert hc; decide) with h1 | h1 <;> exact absurd h1 (by decide)

/-- Claim C8: `Peer::new_seed` returns a peer in state `Seed` with shard 0,
epoch 0, generation 0, an all-zero heartbeat window of length
`HEARTBEAT_WINDOW` with zero running sum and sum-of-squares and fill
flag false, zero log and commit indices, zero log term, and
`vote_granted = false`. -/
theorem new_seed_fields :
    ∀ (hw peer_id : Nat) (addr : String),
      (Peer.new_seed hw peer_id addr).peer_id = peer_id ∧
      (Peer.new_seed hw peer_id addr).addr = addr ∧
      (Peer.new_seed hw peer_id addr).state = GossipState.Seed ∧
      (Peer.new_seed hw peer_id addr).shard_id = 0 ∧
      (Peer.new_seed hw peer_id addr).epoch = 0 ∧
      (Peer.new_seed hw peer_id addr).generation = 0 ∧
      (Peer.new_seed hw peer_id addr).hb_window = List.replicate hw 0 ∧
      (Peer.new_seed hw peer_id addr).hb_window.length = hw ∧
      (∀ x ∈ (Peer.new_seed hw peer_id addr).hb_window, x = 0) ∧
      (Peer.new_seed hw peer_id addr).hb_window_pos = 0 ∧
      (Peer.new_seed hw peer_id addr).hb_sum = 0 ∧
      (Peer.new_seed hw peer_id addr).hb_sq_sum = 0 ∧
      (Peer.new_seed hw peer_id addr).hb_is_full = false ∧
      (Peer.new_seed hw peer_id addr).last_log_index = 0 ∧
      (Peer.new_seed hw peer_id addr).last_log_term = 0 ∧
      (Peer.new_seed hw peer_id addr).commit_index = 0 ∧
      (Peer.new_seed hw peer_id addr).vote_granted = false := by
  intro hw peer_id addr
  refine ⟨rfl, rfl, rfl, rfl, rfl, rfl, rfl, List.length_replicate hw 0, ?_,
    rfl, rfl, rfl, rfl, rfl, rfl, rfl, rfl⟩
  intro x hx
  exact List.eq_of_mem_replicate hx

/-- Witness for C8: instantiating the field description of
`Peer::new_seed` at window size 3: every sample of the concrete
heartbeat window is zero, and the state is `Seed`. -/
theorem new_seed_fields_witness :
    (0 : Nat) = 0 ∧
    (Peer.new_seed 3 9 "10.0.0.4:7911").state = GossipState.Seed :=
  ⟨(new_seed_fields 3 9 "10.0.0.4:7911").2.2.2.2.2.2.2.2.1 0 (by decide),
    (new_seed_fields 3 9 "10.0.0.4:7911").2.2.1⟩

/-- Claim C9: `Peer::new` copies `peer_id`, `shard_id`, `epoch`, `generation`,
`addr`, `hostname`, `last_log_index` and `last_log_term` from the given
`PeerInfo`, sets `commit_index` to the `last_log_index` of that `PeerInfo`,
and resets all heartbeat statistics and `vote_granted` to their
zero/false initial values regardless of the `PeerInfo` contents. -/
theorem new_copies_info_and_resets_stats :
    ∀ (hw : Nat) (info : PeerInfo) (st : GossipState),
      (Peer.new hw info st).peer_id = info.peer_id ∧
      (Peer.new hw info st).shard_id = info.shard_id ∧
      (Peer.new hw info st).epoch = info.epoch ∧
      (Peer.new hw info st).generation = info.generation ∧
      (Peer.new hw info st).addr = info.addr ∧
      (Peer.new hw info st).hostname = info.hostname ∧
      (Peer.new hw info st).state = st ∧
      (Peer.new hw info st).last_log_index = info.last_log_index ∧
      (Peer.new hw info st).last_log_term = info.last_log_term ∧
      (Peer.new hw info st).commit_index = info.last_log_index ∧
      (Peer.new hw info st).hb_window = List.replicate hw 0 ∧
      (Peer.new hw info st).hb_window_pos = 0 ∧
      (Peer.new hw info st).hb_sum = 0 ∧
      (Peer.new hw info st).hb_sq_sum = 0 ∧
      (Peer.new hw info st).hb_is_full = false ∧
      (Peer.new hw info st).vote_granted = false := by
  intro hw info st
  exact ⟨rfl, rfl, rfl, rfl, rfl, rfl, rfl, rfl, rfl, rfl, rfl, rfl, rfl,
    rfl, rfl, rfl⟩

/-- Claim C10: the five lifecycle states partition into `Seed`, healthy
(`Alive`, `Suspected`) and offline (`Offline`, `Left`): for every peer
exactly one of `is_seed`, `is_healthy`, `is_offline` is true. -/
theorem seed_healthy_offline_partition :
    ∀ p : Peer,
      (p.is_seed || p.is_healthy || p.is_offline) = true ∧
      (p.is_seed && p.is_healthy) = false ∧
      (p.is_seed && p.is_offline) = false ∧
      (p.is_healthy && p.is_offline) = false := by
  intro p
  cases h : p.state <;>
    simp [Peer.is_seed, Peer.is_healthy, Peer.is_offline, h]

/-- Claim C7: `get_peer` returns a stored peer whose `peer_id` equals the
queried id whenever one exists and `none` otherwise; consequently
`is_known_peer` is true exactly when `get_peer` is `some`. -/
theorem get_peer_finds_stored_peer :
    ∀ (c : Cluster) (pid : Nat),
      (∀ p, c.get_peer pid = some p → p ∈ c.peers ∧ p.peer_id = pid) ∧
      ((∃ p ∈ c.peers, p.peer_id = pid) → (c.get_peer pid).isSome = true) ∧
      (c.get_peer pid = none ↔ ∀ p ∈ c.peers, p.peer_id ≠ pid) ∧
      (c.is_known_peer pid = true ↔ (c.get_peer pid).isSome = true) := by
  intro c pid
  refine ⟨?_, ?_, ?_, ?_⟩
  · intro p hp
    exact ⟨List.mem_of_find?_eq_some hp,
      by simpa using List.find?_some hp⟩
  · intro ⟨p, hp, hid⟩
    rw [Cluster.get_peer, List.find?_isSome]
    exact ⟨p, hp, by simpa using hid⟩
  · rw [Cluster.get_peer, List.find?_eq_none]
    simp
  · rw [Cluster.is_known_peer, Cluster.get_peer, List.find?_isSome,
      List.any_eq_true]

/-- Witness for C7: on a one-peer cluster, `is_known_peer` answers true
for the stored id and `get_peer` answers `none` for an absent id. -/
theorem get_peer_finds_stored_peer_witness :
    (Cluster.mk [Peer.new_seed 2 7 "10.0.0.7:7911"]).is_known_peer 7 = true ∧
    (Cluster.mk [Peer.new_seed 2 7 "10.0.0.7:7911"]).get_peer 9 = none := by
  constructor
  · exact (get_peer_finds_stored_peer
      (Cluster.mk [Peer.new_seed 2 7 "10.0.0.7:7911"]) 7).2.2.2.mpr (by decide)
  · exact (get_peer_finds_stored_peer
      (Cluster.mk [Peer.new_seed 2 7 "10.0.0.7:7911"]) 9).2.2.1.mpr (by decide)

/-- Claim C6: when the stored peers have pairwise distinct ids,
`is_peer_healthy pid` agrees with "`get_peer pid` returns a healthy
peer"; without the uniqueness precondition the two queries can disagree,
exhibited by a registry holding an offline and an alive peer under the
same id. -/
theorem is_peer_healthy_agrees_with_get_peer :
    (∀ (c : Cluster) (pid : Nat),
      c.peers.Pairwise (fun a b => a.peer_id ≠ b.peer_id) →
      (c.is_peer_healthy pid = true ↔
        ∃ p, c.get_peer pid = some p ∧ p.is_healthy = true)) ∧
    (Cluster.mk
      [{ Peer.new_seed 2 1 "10.0.0.1:7911" with state := GossipState.Offline },
       { Peer.new_seed 2 1 "10.0.0.2:7911" with
          state := GossipState.Alive }]).is_peer_healthy 1 = true ∧
    ∃ p, (Cluster.mk
      [{ Peer.new_seed 2 1 "10.0.0.1:7911" with state := GossipState.Offline },
       { Peer.new_seed 2 1 "10.0.0.2:7911" with
          state := GossipState.Alive }]).get_peer 1 = some p ∧
      p.is_healthy = false := by
  refine ⟨?_, by decide, ?_⟩
  · intro c pid hdist
    constructor
    · intro hany
      rw [Cluster.is_peer_healthy, List.any_eq_true] at hany
      obtain ⟨p, hpmem, hp⟩ := hany
      rw [Bool.and_eq_true, beq_iff_eq] at hp
      have hsome : (c.get_peer pid).isSome = true := by
        rw [Cluster.get_peer, List.find?_isSome]
        exact ⟨p, hpmem, by simp [hp.1]⟩
      obtain ⟨q, hq⟩ := Option.isSome_iff_exists.mp hsome
      have hqmem : q ∈ c.peers := List.mem_of_find?_eq_some hq
      have hqid : q.peer_id = pid := by simpa using List.find?_some hq
      have hpq : p = q := by
        by_contra hne
        exact hdist.forall (fun a b hab => (hab ∘ Eq.symm))
          hpmem hqmem hne (hp.1.trans hqid.symm)
      exact ⟨q, hq, hpq ▸ hp.2⟩
    · intro ⟨p, hfind, hph⟩
      rw [Cluster.get_peer] at hfind
      have hmem := List.mem_of_find?_eq_some hfind
      have hid : p.peer_id = pid := by simpa using List.find?_some hfind
      rw [Cluster.is_peer_healthy, List.any_eq_true]
      exact ⟨p, hmem, by rw [Bool.and_eq_true, beq_iff_eq]; exact ⟨hid, hph⟩⟩
  · exact ⟨{ Peer.new_seed 2 1 "10.0.0.1:7911" with
      state := GossipState.Offline }, by decide, by decide⟩

/-- Witness for C6: on a duplicate-free one-peer registry holding an
alive peer, `is_peer_healthy` answers true via the theorem. -/
theorem is_peer_healthy_agrees_with_get_peer_witness :
    (Cluster.mk [{ Peer.new_seed 2 3 "10.0.0.3:7911" with
        state := GossipState.Alive }]).is_peer_healthy 3 = true :=
  (is_peer_healthy_agrees_with_get_peer.1
      (Cluster.mk [{ Peer.new_seed 2 3 "10.0.0.3:7911" with
        state := GossipState.Alive }]) 3 (List.pairwise_singleton _ _)).mpr
    ⟨{ Peer.new_seed 2 3 "10.0.0.3:7911" with state := GossipState.Alive },
      rfl, rfl⟩

/-- Helper: the initial election state satisfies the invariant. -/
theorem inv_init (n : Nat) : Inv (initState n) := by
  refine ⟨fun t v _ => rfl, fun i hi => absurd rfl hi, fun i hi => ?_⟩
  exact Role.noConfusion hi

/-- Helper: every protocol step preserves the invariant. -/
theorem inv_step {n : Nat} {s s' : ElectionState n}
    (hs : Inv s) (h : Step s s') : Inv s' := by
  obtain ⟨h1, h2, h3⟩ := hs
  cases h with
  | timeout i hrole =>
    refine ⟨?_, ?_, ?_⟩
    · intro t v hv
      dsimp only [upd] at hv ⊢
      by_cases hvi : v = i
      · subst hvi
        rw [if_pos rfl] at hv
        rw [if_neg (by omega)]
        exact h1 t v (by omega)
      · rw [if_neg hvi] at hv
        rw [if_neg (by intro hc; exact hvi hc.2)]
        exact h1 t v hv
    · intro j hj v hv
      dsimp only [upd] at hj hv ⊢
      by_cases hji : j = i
      · subst hji
        rw [if_pos rfl] at hv
        rw [if_pos rfl]
        have hvj : v = j := Finset.mem_singleton.mp hv
        subst hvj
        rw [if_pos ⟨rfl, rfl⟩]
      · rw [if_neg hji] at hj hv
        rw [if_neg hji]
        by_cases hcond : s.currentTerm j = s.currentTerm i + 1 ∧ v = i
        · exfalso
          obtain ⟨hterm, hvi⟩ := hcond
          have hrec := h2 j hj v hv
          rw [hvi, hterm] at hrec
          rw [h1 (s.currentTerm i + 1) i (Nat.lt_succ_self _)] at hrec
          cases hrec
        · rw [if_neg hcond]
          exact h2 j hj v hv
    · intro j hj
      dsimp only [upd] at hj ⊢
      by_cases hji : j = i
      · subst hji
        rw [if_pos rfl] at hj
        exact Role.noConfusion hj
      · rw [if_neg hji] at hj ⊢
        exact h3 j hj
  | grant v0 c0 hvf hlog =>
    refine ⟨?_, ?_, h3⟩
    · intro t v hv
      dsimp only at hv ⊢
      by_cases hcond : t = s.currentTerm v0 ∧ v = v0
      · exfalso
        obtain ⟨ht0, hv0⟩ := hcond
        subst ht0 hv0
        exact Nat.lt_irrefl _ hv
      · rw [if_neg hcond]
        exact h1 t v hv
    · intro j hj v hv
      dsimp only at hj hv ⊢
      by_cases hcond : s.currentTerm j = s.currentTerm v0 ∧ v = v0
      · obtain ⟨hterm, hvv0⟩ := hcond
        rw [if_pos ⟨hterm, hvv0⟩]
        have hrec := h2 j hj v hv
        rw [hvv0, hterm] at hrec
        rcases hvf with hn | hsome
        · rw [hn] at hrec; cases hrec
        · rw [hsome] at hrec
          exact hrec
      · rw [if_neg hcond]
        exact h2 j hj v hv
  | recvVote c0 v0 hrole hvf =>
    refine ⟨h1, ?_, ?_⟩
    · intro j hj v hv
      dsimp only [upd] at hj hv ⊢
      by_cases hjc : j = c0
      · subst hjc
        rw [if_pos rfl] at hv
        rcases Finset.mem_insert.mp hv with hvv | hvmem
        · subst hvv
          exact hvf
        · exact h2 j hj v hvmem
      · rw [if_neg hjc] at hv
        exact h2 j hj v hv
    · intro j hj
      dsimp only [upd] at hj ⊢
      by_cases hjc : j = c0
      · subst hjc
        rw [hrole] at hj
        exact Role.noConfusion hj
      · rw [if_neg hjc]
        exact h3 j hj
  | becomeLeader c0 hrole hquorum =>
    refine ⟨h1, ?_, ?_⟩
    · intro j hj v hv
      dsimp only [upd] at hj hv ⊢
      by_cases hjc : j = c0
      · subst hjc
        refine h2 j ?_ v hv
        rw [hrole]
        exact fun hc => Role.noConfusion hc
      · rw [if_neg hjc] at hj
        exact h2 j hj v hv
    · intro j hj
      dsimp only [upd] at hj ⊢
      by_cases hjc : j = c0
      · subst hjc
        exact hquorum
      · rw [if_neg hjc] at hj
        exact h3 j hj
  | observeHigherTerm i0 t0 hlt =>
    refine ⟨?_, ?_, ?_⟩
    · intro t v hv
      dsimp only [upd] at hv ⊢
      by_cases hvi : v = i0
      · subst hvi
        rw [if_pos rfl] at hv
        exact h1 t v (by omega)
      · rw [if_neg hvi] at hv
        exact h1 t v hv
    · intro j hj v hv
      dsimp only [upd] at hj hv ⊢
      by_cases hji : j = i0
      · subst hji
        rw [if_pos rfl] at hj
        exact absurd rfl hj
      · rw [if_neg hji] at hj hv ⊢
        exact h2 j hj v hv
    · intro j hj
      dsimp only [upd] at hj ⊢
      by_cases hji : j = i0
      · subst hji
        rw [if_pos rfl] at hj
        exact Role.noConfusion hj
      · rw [if_neg hji] at hj ⊢
        exact h3 j hj
  | advanceLog i0 llt lli =>
    exact ⟨h1, h2, h3⟩

/-- Helper: every reachable election state satisfies the invariant. -/
theorem reachable_inv {n : Nat} {s : ElectionState n} (h : Reachable s) :
    Inv s := by
  induction h with
  | init => exact inv_init n
  | step _ hstep ih => exact inv_step ih hstep

/-- Helper: reachability is preserved along `StepStar`. -/
theorem reachable_of_star {n : Nat} {s s' : ElectionState n}
    (h : Reachable s) (hstar : StepStar s s') : Reachable s' := by
  induction hstar with
  | refl => exact h
  | tail _ hstep ih => exact Reachable.step ih hstep

/-- Helper: each shard of a reachable system is a reachable election
state of the per-shard machine. -/
theorem sysReachable_shard {n : Nat} {sys : ShardSys n}
    (h : SysReachable sys) : ∀ sh, Reachable (sys sh) := by
  induction h with
  | init => exact fun _ => Reachable.init
  | step _ hstep ih =>
    intro sh
    cases hstep with
    | step sh0 s2 hs =>
      by_cases hsh : sh = sh0
      · subst hsh
        simpa using Reachable.step (ih sh) hs
      · simpa [hsh] using ih sh

/-- Helper: two strict majorities of the `n` shard peers intersect. -/
theorem quorum_inter {n : Nat} {a b : Finset (Fin n)}
    (ha : 2 * a.card > n) (hb : 2 * b.card > n) :
    ∃ v, v ∈ a ∧ v ∈ b := by
  have hcard : (a ∪ b).card + (a ∩ b).card = a.card + b.card :=
    Finset.card_union_add_card_inter a b
  have hle : (a ∪ b).card ≤ n := by
    calc (a ∪ b).card ≤ (Finset.univ : Finset (Fin n)).card :=
          Finset.card_le_univ _
      _ = n := Finset.card_fin n
  have hpos : 0 < (a ∩ b).card := by omega
  obtain ⟨v, hv⟩ := Finset.card_pos.mp hpos
  exact ⟨v, Finset.mem_inter.mp hv⟩

/-- Helper: a single step never erases or changes a granted vote. -/
theorem votedFor_stable_step {n : Nat} {s s' : ElectionState n}
    (hs : Inv s) (h : Step s s') :
    ∀ (t : Nat) (v c : Fin n),
      s.votedFor t v = some c → s'.votedFor t v = some c := by
  obtain ⟨h1, h2, h3⟩ := hs
  intro t v c hvc
  cases h with
  | timeout i hrole =>
    dsimp only
    by_cases hcond : t = s.currentTerm i + 1 ∧ v = i
    · exfalso
      obtain ⟨hts, hvi⟩ := hcond
      subst hvi
      rw [h1 t v (by omega)] at hvc
      cases hvc
    · rw [if_neg hcond]
      exact hvc
  | grant v0 c0 hvf hlog =>
    dsimp only
    by_cases hcond : t = s.currentTerm v0 ∧ v = v0
    · obtain ⟨ht0, hv0⟩ := hcond
      subst ht0 hv0
      rw [if_pos ⟨rfl, rfl⟩]
      rcases hvf with hn | hsome
      · rw [hn] at hvc
        cases hvc
      · rw [hsome] at hvc
        exact hvc
    · rw [if_neg hcond]
      exact hvc
  | recvVote c0 v0 hrole hvf => exact hvc
  | becomeLeader c0 hrole hquorum => exact hvc
  | observeHigherTerm i0 t0 hlt => exact hvc
  | advanceLog i0 llt lli => exact hvc

/-- Helper: granted votes persist along any execution from a reachable
state. -/
theorem votedFor_stable {n : Nat} {s s' : ElectionState n}
    (hreach : Reachable s) (hstar : StepStar s s') :
    ∀ (t : Nat) (v c : Fin n),
      s.votedFor t v = some c → s'.votedFor t v = some c := by
  induction hstar with
  | refl => exact fun _ _ _ h => h
  | tail hprev hstep ih =>
    intro t v c hvc
    exact votedFor_stable_step
      (reachable_inv (reachable_of_star hreach hprev)) hstep t v c
      (ih t v c hvc)

/-- Helper: a list maps to itself under a function that fixes each of
its members. -/
theorem map_eq_self {α : Type} {f : α → α} :
    ∀ l : List α, (∀ a ∈ l, f a = a) → l.map f = l
  | [], _ => rfl
  | a :: l, h => by
    rw [List.map_cons, h a (List.mem_cons_self a l),
      map_eq_self l (fun b hb => h b (List.mem_cons_of_mem a hb))]

/-- Claim C1: single-leader safety: in every reachable system state, for
every shard and every term, at most one peer considers itself Leader for
that (shard, term) pair — two peers leading the same shard in the same
term are equal. -/
theorem single_leader_safety :
    ∀ (n : Nat) (sys : ShardSys n), SysReachable sys →
      ∀ (sh : Nat) (l1 l2 : Fin n),
        (sys sh).role l1 = Role.Leader →
        (sys sh).role l2 = Role.Leader →
        (sys sh).currentTerm l1 = (sys sh).currentTerm l2 →
        l1 = l2 := by
  intro n sys hsys sh l1 l2 h1 h2 ht
  obtain ⟨hA, hB, hC⟩ := reachable_inv (sysReachable_shard hsys sh)
  obtain ⟨v, hv1, hv2⟩ := quorum_inter (hC l1 h1) (hC l2 h2)
  have e1 := hB l1 (by rw [h1]; exact fun hc => Role.noConfusion hc) v hv1
  have e2 := hB l2 (by rw [h2]; exact fun hc => Role.noConfusion hc) v hv2
  rw [ht] at e1
  exact Option.some.inj (e1.symm.trans e2)

/-- Witness for C1: a concrete reachable one-peer system in which peer 0
leads shard 0 at term 1; the safety theorem instantiated there. -/
theorem single_leader_safety_witness :
    (demoSys2 0).role 0 = Role.Leader ∧ (0 : Fin 1) = 0 := by
  have hstep1 : Step (sysInit 1 0) demoS1 :=
    Step.timeout (initState 1) 0 (by decide)
  have hsys1 : SysStep (sysInit 1) demoSys1 :=
    SysStep.step (sysInit 1) 0 demoS1 hstep1
  have hstep2 : Step (demoSys1 0) demoS2 :=
    Step.becomeLeader demoS1 0 (by decide) (by decide)
  have hsys2 : SysStep demoSys1 demoSys2 :=
    SysStep.step demoSys1 0 demoS2 hstep2
  have hreach : SysReachable demoSys2 :=
    SysReachable.step (SysReachable.step SysReachable.init hsys1) hsys2
  have hlead : (demoSys2 0).role 0 = Role.Leader := by decide
  exact ⟨hlead, single_leader_safety 1 demoSys2 hreach 0 0 0 hlead hlead rfl⟩

/-- Claim C3: vote uniqueness: along any execution from a reachable state, a
vote granted by peer `v` in term `t` is never erased or regranted to a
different candidate, so a peer never grants two votes in the same term;
and every newly constructed peer starts with `vote_granted = false`. -/
theorem vote_uniqueness :
    (∀ (n : Nat) (s s' : ElectionState n), Reachable s → StepStar s s' →
      ∀ (t : Nat) (v c c' : Fin n),
        s.votedFor t v = some c → s'.votedFor t v = some c' → c' = c) ∧
    (∀ (hw peer_id : Nat) (addr : String),
      (Peer.new_seed hw peer_id addr).vote_granted = false) ∧
    (∀ (hw : Nat) (info : PeerInfo) (st : GossipState),
      (Peer.new hw info st).vote_granted = false) := by
  refine ⟨?_, fun _ _ _ => rfl, fun _ _ _ => rfl⟩
  intro n s s' hreach hstar t v c c' hc hc'
  rw [votedFor_stable hreach hstar t v c hc] at hc'
  exact (Option.some.inj hc').symm

/-- Witness for C3: the vote peer 0 granted itself in term 1 of `demoS1`
persists, and two concretely constructed peers start unvoted. -/
theorem vote_uniqueness_witness :
    (0 : Fin 1) = 0 ∧
    (Peer.new_seed 3 5 "10.0.0.5:7911").vote_granted = false ∧
    (Peer.new 3 demoInfoLow GossipState.Alive).vote_granted = false := by
  have hstep1 : Step (initState 1) demoS1 :=
    Step.timeout (initState 1) 0 (by decide)
  have hreach : Reachable demoS1 := Reachable.step Reachable.init hstep1
  have hvf : demoS1.votedFor 1 0 = some 0 := by decide
  exact ⟨vote_uniqueness.1 1 demoS1 demoS1 hreach (StepStar.refl demoS1)
      1 0 0 0 hvf hvf,
    vote_uniqueness.2.1 3 5 "10.0.0.5:7911",
    vote_uniqueness.2.2 3 demoInfoLow GossipState.Alive⟩

/-- Claim C5: registry `upsert` merges by `peer_id`: an incoming epoch
strictly lower than the one stored for every peer under that id leaves
the registry entirely unchanged, while an incoming epoch strictly higher
than every stored one leaves the heartbeat statistics of every peer
stored under that id reset. -/
theorem upsert_stale_ignored_fresh_resets :
    ∀ (hw : Nat) (c : Cluster) (info : PeerInfo),
      ((∃ p ∈ c.peers, p.peer_id = info.peer_id) →
        (∀ p ∈ c.peers, p.peer_id = info.peer_id → info.epoch < p.epoch) →
        c.upsert hw info = c) ∧
      ((∀ p ∈ c.peers, p.peer_id = info.peer_id → p.epoch < info.epoch) →
        ∀ q ∈ (c.upsert hw info).peers, q.peer_id = info.peer_id →
          q.hb_window = List.replicate hw 0 ∧ q.hb_window_pos = 0 ∧
          q.hb_sum = 0 ∧ q.hb_sq_sum = 0 ∧ q.hb_is_full = false) := by
  intro hw c info
  constructor
  · intro ⟨p0, hp0, hid0⟩ hstale
    have hknown : c.is_known_peer info.peer_id = true := by
      rw [Cluster.is_known_peer, List.any_eq_true]
      exact ⟨p0, hp0, by simp [hid0]⟩
    rw [Cluster.upsert, if_pos hknown]
    cases c with
    | mk peers =>
      simp only [Cluster.mk.injEq]
      refine map_eq_self peers ?_
      intro p hp
      by_cases hpid : p.peer_id = info.peer_id
      · rw [if_pos hpid, upsert_merge, if_pos (hstale p hp hpid)]
      · rw [if_neg hpid]
  · intro hfresh q hq hqid
    rw [Cluster.upsert] at hq
    by_cases hknown : c.is_known_peer info.peer_id = true
    · rw [if_pos hknown] at hq
      obtain ⟨p, hp, hfp⟩ := List.mem_map.mp hq
      by_cases hpid : p.peer_id = info.peer_id
      · rw [if_pos hpid, upsert_merge,
          if_neg (Nat.lt_asymm (hfresh p hp hpid)),
          if_pos (hfresh p hp hpid)] at hfp
        subst hfp
        exact ⟨rfl, rfl, rfl, rfl, rfl⟩
      · rw [if_neg hpid] at hfp
        subst hfp
        exact absurd hqid hpid
    · rw [if_neg hknown] at hq
      rcases List.mem_append.mp hq with hmem | hmem
      · exfalso
        apply hknown
        rw [Cluster.is_known_peer, List.any_eq_true]
        exact ⟨q, hmem, by simp [hqid]⟩
      · rw [List.mem_singleton.mp hmem]
        exact ⟨rfl, rfl, rfl, rfl, rfl⟩

/-- Witness for C5: a stale epoch-3 update leaves the concrete epoch-5
registry entry untouched, and a fresh epoch-9 update resets its
heartbeat statistics. -/
theorem upsert_stale_ignored_fresh_resets_witness :
    (Cluster.mk [demoStored]).upsert 4 demoInfoLow = Cluster.mk [demoStored] ∧
    ((upsert_merge 4 demoStored demoInfoHigh).hb_window = List.replicate 4 0 ∧
      (upsert_merge 4 demoStored demoInfoHigh).hb_window_pos = 0 ∧
      (upsert_merge 4 demoStored demoInfoHigh).hb_sum = 0 ∧
      (upsert_merge 4 demoStored demoInfoHigh).hb_sq_sum = 0 ∧
      (upsert_merge 4 demoStored demoInfoHigh).hb_is_full = false) := by
  constructor
  · exact (upsert_stale_ignored_fresh_resets 4 (Cluster.mk [demoStored])
      demoInfoLow).1 ⟨demoStored, by decide, by decide⟩ (by decide)
  · exact (upsert_stale_ignored_fresh_resets 4 (Cluster.mk [demoStored])
      demoInfoHigh).2 (by decide) (upsert_merge 4 demoStored demoInfoHigh)
      (by decide) (by decide)

end JmapCluster
